import Mathlib

/-!
Verification of the opencv-measure measurement core.

Shallow embedding of the pipeline implemented in `measure_lines.py`,
`measure_lines3.py` and `bg_color_getter.py`.  Frames are lists of rows of
BGR pixels; pixel channels are modelled as exact rationals (the source casts
frames to `float32` and all the values arising here are small integers, which
`float32` represents exactly).  Wall-clock timestamps are rationals.  Python
`int(...)` truncation (and numpy `astype(int)`) is modelled by `pyInt`.
-/

set_option maxHeartbeats 1000000

namespace OpencvMeasure

/-- One BGR pixel, channels as exact rationals (the source works on the frame
cast to `float32`). -/
structure Pixel where
  b : ℚ
  g : ℚ
  r : ℚ
deriving DecidableEq

/-- A frame: a list of rows, each row a list of pixels. -/
abbrev Frame := List (List Pixel)

/-- A boolean mask with the same layout as a frame. -/
abbrev Mask := List (List Bool)

/-- Squared Euclidean color distance,
`np.sum((frame.astype(np.float32) - bg_mean)**2, axis=2)` at one pixel
(`measure_lines.py` line 69, `measure_lines3.py` line 989). -/
def diff2 (p bgp : Pixel) : ℚ :=
  (p.b - bgp.b) ^ 2 + (p.g - bgp.g) ^ 2 + (p.r - bgp.r) ^ 2

/-- The raw thresholded mask `diff2 > thresh2` with `thresh2 = COLOR_THRESH**2`
(`measure_lines.py` lines 25, 69-70; `measure_lines3.py` lines 988-990). -/
def rawMask (f : Frame) (bgp : Pixel) (colorThresh : ℚ) : Mask :=
  f.map fun row => row.map fun p => decide (diff2 p bgp > colorThresh ^ 2)

/-- Read a mask pixel with a default for out-of-bounds coordinates.  OpenCV's
morphology uses a constant border that never limits the operation: the border
reads as `true` for erosion and as `false` for dilation. -/
def getPix (m : Mask) (y x : ℤ) (dflt : Bool) : Bool :=
  if 0 ≤ y ∧ y < (m.length : ℤ) then
    let row := m.getD y.toNat []
    if 0 ≤ x ∧ x < (row.length : ℤ) then row.getD x.toNat dflt else dflt
  else dflt

/-- Offsets of the 5×5 rectangular structuring element
`cv2.getStructuringElement(cv2.MORPH_RECT, (5, 5))`, anchored at its center. -/
def offs : List ℤ := [-2, -1, 0, 1, 2]

/-- Morphological erosion with the 5×5 rectangular kernel. -/
def erode (m : Mask) : Mask :=
  (List.range m.length).map fun y =>
    (List.range (m.getD y []).length).map fun x =>
      offs.all fun dy => offs.all fun dx =>
        getPix m ((y : ℤ) + dy) ((x : ℤ) + dx) true

/-- Morphological dilation with the 5×5 rectangular kernel. -/
def dilate (m : Mask) : Mask :=
  (List.range m.length).map fun y =>
    (List.range (m.getD y []).length).map fun x =>
      offs.any fun dy => offs.any fun dx =>
        getPix m ((y : ℤ) + dy) ((x : ℤ) + dx) false

/-- FrameSegmenter: threshold against the background color, then
`cv2.morphologyEx(..., cv2.MORPH_OPEN, kernel)` (erosion then dilation)
followed by `cv2.morphologyEx(..., cv2.MORPH_CLOSE, kernel)` (dilation then
erosion), `measure_lines.py` lines 69-73 and `measure_lines3.py` 988-993. -/
def frameSegmenter (f : Frame) (bgp : Pixel) (colorThresh : ℚ) : Mask :=
  erode (dilate (dilate (erode (rawMask f bgp colorThresh))))

/-- Indices of the foreground pixels of one mask row, in increasing order:
`xs = np.where(row)[0]` (`measure_lines.py` line 81). -/
def trueIndices (row : List Bool) : List ℕ :=
  (List.range row.length).filter fun i => row.getD i false

/-- Per-row width `xs[-1] - xs[0]`, and `0` when the row has no foreground
pixel (`measure_lines.py` lines 78-86). -/
def rowWidth (row : List Bool) : ℤ :=
  ((trueIndices row).getLastD 0 : ℤ) - ((trueIndices row).headD 0 : ℤ)

/-- The set of foreground x-coordinates of one mask row (used to state what
`rowWidth` computes). -/
def fgSet (row : List Bool) : Finset ℕ :=
  (Finset.range row.length).filter fun i => row.getD i false = true

/-- Arithmetic mean of a list, `float(np.mean(...))`; `0` for the empty list
(numpy would yield NaN there, a case the claims below never rely on). -/
def listMean (l : List ℚ) : ℚ := l.sum / (l.length : ℚ)

/-- Python `int(...)` / numpy `astype(int)`: truncation toward zero. -/
def pyInt (q : ℚ) : ℤ := if 0 ≤ q then ⌊q⌋ else ⌈q⌉

/-- `np.linspace(start, stop, num, dtype=int)`: `num` evenly spaced rationals
from `start` to `stop` inclusive, each truncated toward zero. -/
def linspaceInt (start stop : ℤ) (num : ℕ) : List ℤ :=
  if num = 0 then []
  else if num = 1 then [start]
  else (List.range num).map fun (i : ℕ) =>
    pyInt ((start : ℚ) + (i : ℚ) * ((stop - start : ℤ) : ℚ) / ((num : ℚ) - 1))

/-- `max(0, int(h * ratio))` of `measure_lines3.py` lines 963-964. -/
def marginPx (ratio : ℚ) (h : ℤ) : ℤ := max 0 (pyInt ((h : ℚ) * ratio))

/-- Margins and available height after the fallback chain of
`measure_lines3.py` lines 963-976: result `(top_m, bottom_m, available_height)`. -/
def fallbackGeom (nrows : ℤ) (tr br : ℚ) (h : ℤ) : ℤ × ℤ × ℤ :=
  if h - marginPx tr h - marginPx br h < nrows then
    if h - 20 < nrows then (1, 1, h - 2) else (10, 10, h - 20)
  else (marginPx tr h, marginPx br h, h - marginPx tr h - marginPx br h)

/-- `end_y` fixup of `measure_lines3.py` lines 978-981: result
`(top_m, end_y)`. -/
def startStop (h top1 bot1 : ℤ) : ℤ × ℤ :=
  if h - bot1 - 1 ≤ top1 then (0, h - 1) else (top1, h - bot1 - 1)

/-- `min(NUM_ROWS, available_height)`, the requested number of sample rows. -/
def numRowsEff (nrows : ℤ) (tr br : ℚ) (h : ℤ) : ℤ :=
  min nrows (fallbackGeom nrows tr br h).2.2

/-- The SampleRowSet computation of `measure_lines3.py` lines 961-985:
margins with fallback, `np.linspace(top_m, end_y, min(NUM_ROWS,
available_height), dtype=int)`, then `np.clip(sample_ys, 0, h-1)`.
`none` models the `ValueError` numpy raises when the sample count is
negative. -/
def sampleYs (nrows : ℤ) (tr br : ℚ) (h : ℤ) : Option (List ℤ) :=
  if numRowsEff nrows tr br h < 0 then none
  else some ((linspaceInt
      (startStop h (fallbackGeom nrows tr br h).1 (fallbackGeom nrows tr br h).2.1).1
      (startStop h (fallbackGeom nrows tr br h).1 (fallbackGeom nrows tr br h).2.1).2
      (numRowsEff nrows tr br h).toNat).map fun y => min (h - 1) (max 0 y))

/-- The runtime-tunable configuration fields used by the measurement loop
(`measure_lines3.py` lines 22-29). -/
structure Config3 where
  numRows : ℤ
  colorThresh : ℚ
  topMarginRat : ℚ
  bottomMarginRat : ℚ
  widthThreshold : ℚ
deriving DecidableEq

/-- The mutable measurement state owned by the loop (`measure_lines3.py`
lines 72-77 plus the video position of the frame source). -/
structure MeasState where
  width_buffer : List ℚ
  last_time : ℚ
  avg_width_1s : ℚ
  initial_width : ℚ
  bgMean : Pixel
  capPos : ℕ
  running : Bool
deriving DecidableEq

/-- TemporalAggregator step, `measure_lines3.py` lines 1014-1021 (identical in
`measure_lines.py` lines 91-97): append the frame sample to the buffer; if at
least one second elapsed since the last flush, publish the buffer mean, clear
the buffer and reset the flush timestamp. -/
def aggregate (s : MeasState) (frame_avg now : ℚ) : MeasState :=
  let buf := s.width_buffer ++ [frame_avg]
  if now - s.last_time ≥ 1 then
    { s with avg_width_1s := if buf = [] then 0 else listMean buf,
             width_buffer := [],
             last_time := now }
  else { s with width_buffer := buf }

/-- AlertEvaluator verdict. -/
inductive AlertState where
  | OK : AlertState
  | ALERT : AlertState
deriving DecidableEq

/-- AlertEvaluator, `measure_lines3.py` lines 1023-1029 (identical in
`measure_lines.py` lines 99-105): deviation and OK/ALERT verdict. -/
def alertEval (avgWidth initialWidth widthThreshold : ℚ) : AlertState × ℚ :=
  let dev := |avgWidth - initialWidth|
  if dev ≤ widthThreshold then (AlertState.OK, dev) else (AlertState.ALERT, dev)

/-- Session initialisation, `measure_lines3.py` lines 904-951: sample rows of
the first frame, initial (baseline) width from its cleaned mask, and
`avg_width_1s` seeded with `initial_width`.  `none` models the sample-row
`ValueError`. -/
def initMeasState (cfg : Config3) (f : Frame) (bgp : Pixel) (t0 : ℚ) :
    Option MeasState :=
  match sampleYs cfg.numRows cfg.topMarginRat cfg.bottomMarginRat (f.length : ℤ) with
  | none => none
  | some ys =>
    let mask0 := frameSegmenter f bgp cfg.colorThresh
    let widths := ys.map fun y => ((rowWidth (mask0.getD y.toNat []) : ℤ) : ℚ)
    let iw := listMean widths
    some { width_buffer := [], last_time := t0, avg_width_1s := iw,
           initial_width := iw, bgMean := bgp, capPos := 1, running := true }

/-- One successful iteration of the measurement loop body,
`measure_lines3.py` lines 961-1021: recompute sample rows, segment, sample
row widths (skipping out-of-range rows, lines 999-1001), average them and
feed the TemporalAggregator. -/
def processFrame (cfg : Config3) (s : MeasState) (f : Frame) (now : ℚ) :
    Option MeasState :=
  match sampleYs cfg.numRows cfg.topMarginRat cfg.bottomMarginRat (f.length : ℤ) with
  | none => none
  | some ys =>
    let m := frameSegmenter f s.bgMean cfg.colorThresh
    let pw := ys.filterMap fun y =>
      if y < 0 ∨ (f.length : ℤ) ≤ y then none
      else some ((rowWidth (m.getD y.toNat []) : ℤ) : ℚ)
    some (aggregate { s with capPos := s.capPos + 1 } (listMean pw) now)

/-- What one `cap.read()` produced: a failure, or a frame together with the
wall-clock time of the iteration. -/
inductive ReadResult where
  | fail : ReadResult
  | frame : Frame → ℚ → ReadResult

/-- One iteration of the `while self.running` loop, `measure_lines3.py` lines
955-1021 (`measure_lines.py` lines 63-97): on a failed read, rewind the
source with `cap.set(cv2.CAP_PROP_POS_FRAMES, 0)` and `continue`; otherwise
run the full measurement cycle. -/
def loopStep (cfg : Config3) (s : MeasState) (r : ReadResult) : Option MeasState :=
  match r with
  | ReadResult.fail => some { s with capPos := 0 }
  | ReadResult.frame f now => processFrame cfg s f now

/-- The pair of margin ratio config fields. -/
structure Margins where
  top : ℚ
  bottom : ℚ
deriving DecidableEq

/-- Which margin field is being edited. -/
inductive MarginKey where
  | top : MarginKey
  | bottom : MarginKey
deriving DecidableEq

/-- The candidate configuration `temp_config` of `measure_lines3.py` lines
788-789. -/
def updateMargin (c : Margins) (k : MarginKey) (v : ℚ) : Margins :=
  match k with
  | MarginKey.top => { c with top := v }
  | MarginKey.bottom => { c with bottom := v }

/-- The margin-ratio slice of `submit_value`, `measure_lines3.py` lines
771-791: per-field range check, then the cross-field sum check on the
candidate configuration; a raised `ValueError` means the proposed value is
rejected and `self.config` keeps its previous contents. -/
def submit_value_margin (c : Margins) (k : MarginKey) (v : ℚ) :
    Except String Margins :=
  if v < 0 ∨ v > 9/10 then
    Except.error "Margin ratios must be between 0.0 and 0.9"
  else
    let c' := updateMargin c k v
    if c'.top + c'.bottom ≥ 1 then Except.error "Combined margins must be < 1.0"
    else Except.ok c'

/-- Whether the submission raised (was rejected). -/
def isRejected (e : Except String Margins) : Bool :=
  match e with
  | Except.error _ => true
  | Except.ok _ => false

/-- The caller-visible effect of a submission: the active configuration
afterwards together with the surfaced reason on rejection
(`measure_lines3.py` lines 793-794 and 810-817). -/
def submitApply (c : Margins) (k : MarginKey) (v : ℚ) : Margins × Option String :=
  match submit_value_margin c k v with
  | Except.ok c' => (c', none)
  | Except.error e => (c, some e)

/-- First-match key lookup in an association-list configuration (Python dict
lookup). -/
def cfgLookup (c : List (String × ℚ)) (k : String) : Option ℚ :=
  match c with
  | [] => none
  | kv :: rest => if kv.1 = k then some kv.2 else cfgLookup rest k

/-- Python `dict.update`: existing keys keep their position and take the new
value, unknown keys are appended. -/
def dictUpdate (base upd : List (String × ℚ)) : List (String × ℚ) :=
  (base.map fun kv =>
    match cfgLookup upd kv.1 with
    | some v => (kv.1, v)
    | none => kv)
  ++ upd.filter fun kv => cfgLookup base kv.1 = none

/-- `self.default_config`, `measure_lines3.py` lines 22-29. -/
def defaultConfig : List (String × ℚ) :=
  [("NUM_ROWS", 5), ("COLOR_THRESH", 220), ("TARGET_FPS", 20),
   ("TOP_MARGIN_RATIO", 1/5), ("BOTTOM_MARGIN_RATIO", 3/5),
   ("WIDTH_THRESHOLD", 5)]

/-- `load_settings`, `measure_lines3.py` lines 90-106: `none` stands for a
missing file or any read/parse error, `some saved` for the parsed JSON
object; on success the saved keys are merged over a copy of the defaults with
`config.update(saved_config)`, otherwise the defaults are returned. -/
def load_settings (file : Option (List (String × ℚ))) : List (String × ℚ) :=
  match file with
  | none => defaultConfig
  | some saved => dictUpdate defaultConfig saved

/-- `frame[y:y+h, x:x+w]` (`bg_color_getter.py` line 27); Python slices clamp
at the ends. -/
def roiCrop (f : Frame) (x y w h : ℕ) : Frame :=
  ((f.drop y).take h).map fun row => (row.drop x).take w

/-- `mean_bgr` (`bg_color_getter.py` lines 7-9): `cv2.mean`, the per-channel
sum divided by the number of pixels (OpenCV reports 0 on an empty image,
matching the division-by-zero convention of `ℚ`). -/
def mean_bgr (img : Frame) : Pixel :=
  { b := (img.flatten.map Pixel.b).sum / (img.flatten.length : ℚ),
    g := (img.flatten.map Pixel.g).sum / (img.flatten.length : ℚ),
    r := (img.flatten.map Pixel.r).sum / (img.flatten.length : ℚ) }

/-- The manual-ROI background estimation of `bg_color_getter.py` lines 19-28:
reject a zero-area selection, otherwise the crop's per-channel mean. -/
def bg_main (f : Frame) (x y w h : ℕ) : Option Pixel :=
  if w = 0 ∨ h = 0 then none
  else some (mean_bgr (roiCrop f x y w h))

/-- A 5×5 test frame: background-colored everywhere except one speckle pixel
at row 2, column 2. -/
def speckFrame : Frame :=
  [List.replicate 5 ⟨0, 0, 0⟩, List.replicate 5 ⟨0, 0, 0⟩,
   [⟨0, 0, 0⟩, ⟨0, 0, 0⟩, ⟨255, 255, 255⟩, ⟨0, 0, 0⟩, ⟨0, 0, 0⟩],
   List.replicate 5 ⟨0, 0, 0⟩, List.replicate 5 ⟨0, 0, 0⟩]

/-! ## Theorems -/

/-- C3: AlertEvaluator is a pure function of the triple
(SmoothedWidth, BaselineWidth, WidthThreshold): the deviation is
`|SmoothedWidth - BaselineWidth|`, the verdict is OK exactly when the
deviation is at most the threshold (boundary inclusive) and ALERT exactly
when it exceeds it, with no dependence on prior evaluations; the spec's
three examples at BaselineWidth 100 and WidthThreshold 5 evaluate as
stated. -/
theorem alert_evaluator_spec (s b t : ℚ) :
    ((alertEval s b t).1 = AlertState.OK ↔ |s - b| ≤ t)
    ∧ ((alertEval s b t).1 = AlertState.ALERT ↔ t < |s - b|)
    ∧ (alertEval s b t).2 = |s - b|
    ∧ (alertEval (1049/10) 100 5).1 = AlertState.OK
    ∧ (alertEval (1051/10) 100 5).1 = AlertState.ALERT
    ∧ (alertEval 95 100 5).1 = AlertState.OK := by
  have hdef : ∀ a c w : ℚ, alertEval a c w =
      if |a - c| ≤ w then (AlertState.OK, |a - c|) else (AlertState.ALERT, |a - c|) := by
    intro a c w
    rfl
  have habs1 : |(1049/10 : ℚ) - 100| = 49/10 := by
    rw [abs_of_nonneg (by norm_num)]; norm_num
  have habs2 : |(1051/10 : ℚ) - 100| = 51/10 := by
    rw [abs_of_nonneg (by norm_num)]; norm_num
  have habs3 : |(95 : ℚ) - 100| = 5 := by
    rw [abs_of_nonpos (by norm_num)]; norm_num
  refine ⟨?_, ?_, ?_, ?_, ?_, ?_⟩
  · rw [hdef]
    split_ifs with hc <;> simp [hc]
  · rw [hdef]
    split_ifs with hc
    · simp [not_lt.mpr hc]
    · simp [lt_of_not_le hc]
  · rw [hdef]
    split_ifs <;> rfl
  · rw [hdef, habs1, if_pos (by norm_num)]
  · rw [hdef, habs2, if_neg (by norm_num)]
  · rw [hdef, habs3, if_pos le_rfl]

/-- C8: while the loop is Running, a failed frame read rewinds the source to
frame 0 and continues Running (it does not stop), and advances no measurement
state: buffer, SmoothedWidth, BaselineWidth and the last-flush timestamp are
untouched. -/
theorem read_failure_preserves_state (cfg : Config3) (s : MeasState)
    (hrun : s.running = true) :
    ∃ s', loopStep cfg s ReadResult.fail = some s' ∧ s'.running = true ∧
      s'.capPos = 0 ∧ s'.width_buffer = s.width_buffer ∧
      s'.avg_width_1s = s.avg_width_1s ∧ s'.initial_width = s.initial_width ∧
      s'.last_time = s.last_time :=
  ⟨{ s with capPos := 0 }, rfl, hrun, rfl, rfl, rfl, rfl, rfl⟩

/-- Witness for C8 at a concrete Running state. -/
theorem read_failure_preserves_state_witness :
    ∃ s', loopStep ⟨5, 220, 1/5, 3/5, 5⟩
        ⟨[7, 8], 2, 7, 7, ⟨0, 0, 0⟩, 3, true⟩ ReadResult.fail = some s' ∧
      s'.running = true ∧ s'.capPos = 0 ∧ s'.width_buffer = [7, 8] ∧
      s'.avg_width_1s = 7 ∧ s'.initial_width = 7 ∧ s'.last_time = 2 :=
  read_failure_preserves_state ⟨5, 220, 1/5, 3/5, 5⟩
    ⟨[7, 8], 2, 7, 7, ⟨0, 0, 0⟩, 3, true⟩ rfl

/-- C4 counterexample: the claim says a candidate margin ratio outside
[0, 0.9) is rejected, yet submitting 0.9 itself (with the other margin 0, so
the sum constraint is satisfied) is accepted by the code: the range check is
`value < 0.0 or value > 0.9`, inclusive of 0.9. -/
theorem margin_validation_counterexample :
    submit_value_margin ⟨2/10, 0⟩ MarginKey.top (9/10) = Except.ok ⟨9/10, 0⟩
    ∧ ¬ ((0 : ℚ) ≤ 9/10 ∧ (9/10 : ℚ) < 9/10)
    ∧ (9/10 : ℚ) + 0 < 1 := by
  refine ⟨?_, by norm_num, by norm_num⟩
  unfold submit_value_margin updateMargin
  rw [if_neg (by norm_num)]
  norm_num

/-- C4 (amended): a proposed margin-ratio value is rejected — previous pair
retained, reason surfaced — exactly when the candidate lies outside the
closed interval [0, 0.9] or the resulting pair sums to ≥ 1.0; in particular
TOP_MARGIN_RATIO := 0.6 while BOTTOM_MARGIN_RATIO = 0.6 is rejected and the
active pair is retained. -/
theorem margin_validation_spec (c : Margins) (k : MarginKey) (v : ℚ) :
    (isRejected (submit_value_margin c k v) = true ↔
      (v < 0 ∨ 9/10 < v ∨
        1 ≤ (updateMargin c k v).top + (updateMargin c k v).bottom))
    ∧ (isRejected (submit_value_margin c k v) = true →
        (submitApply c k v).1 = c ∧ (submitApply c k v).2 ≠ none)
    ∧ (isRejected (submit_value_margin c k v) = false →
        submit_value_margin c k v = Except.ok (updateMargin c k v))
    ∧ isRejected (submit_value_margin ⟨1/5, 6/10⟩ MarginKey.top (6/10)) = true
    ∧ (submitApply ⟨1/5, 6/10⟩ MarginKey.top (6/10)).1 = ⟨1/5, 6/10⟩ := by
  have hdef : ∀ (c : Margins) (k : MarginKey) (v : ℚ),
      submit_value_margin c k v =
        if v < 0 ∨ v > 9/10 then
          Except.error "Margin ratios must be between 0.0 and 0.9"
        else if (updateMargin c k v).top + (updateMargin c k v).bottom ≥ 1 then
          Except.error "Combined margins must be < 1.0"
        else Except.ok (updateMargin c k v) := by
    intro c k v
    rfl
  have h0610 : isRejected (submit_value_margin ⟨1/5, 6/10⟩ MarginKey.top (6/10)) = true := by
    rw [hdef]
    rw [if_neg (by norm_num)]
    rw [if_pos (by unfold updateMargin; norm_num)]
    rfl
  refine ⟨?_, ?_, ?_, h0610, ?_⟩
  · rw [hdef]
    split_ifs with h1 h2
    · simp only [isRejected, true_iff]
      rcases h1 with h1 | h1
      · exact Or.inl h1
      · exact Or.inr (Or.inl h1)
    · simp only [isRejected, true_iff]
      exact Or.inr (Or.inr h2)
    · simp only [isRejected, Bool.false_eq_true, false_iff]
      push_neg at h1 h2
      rintro (hv | hv | hv)
      · exact absurd hv (not_lt.mpr h1.1)
      · exact absurd hv (not_lt.mpr h1.2)
      · exact absurd hv (not_le.mpr h2)
  · intro hrej
    unfold submitApply
    rcases hcase : submit_value_margin c k v with e | c'
    · exact ⟨rfl, by simp⟩
    · rw [hcase] at hrej
      exact absurd hrej (by simp [isRejected])
  · intro hacc
    rw [hdef] at hacc ⊢
    split_ifs at hacc ⊢ with h1 h2
    · exact absurd hacc (by simp [isRejected])
    · exact absurd hacc (by simp [isRejected])
    · rfl
  · unfold submitApply
    rcases hcase : submit_value_margin ⟨1/5, 6/10⟩ MarginKey.top (6/10) with e | c'
    · rfl
    · rw [hcase] at h0610
      exact absurd h0610 (by simp [isRejected])

/-- Witness for C4's amended theorem: an out-of-range candidate (2.0) is
rejected and the active pair ⟨0, 0⟩ is retained. -/
theorem margin_validation_spec_witness :
    isRejected (submit_value_margin ⟨0, 0⟩ MarginKey.top 2) = true
    ∧ (submitApply ⟨0, 0⟩ MarginKey.top 2).1 = ⟨0, 0⟩ := by
  have h := margin_validation_spec ⟨0, 0⟩ MarginKey.top 2
  have hrej : isRejected (submit_value_margin ⟨0, 0⟩ MarginKey.top 2) = true :=
    h.1.mpr (Or.inr (Or.inl (by norm_num)))
  exact ⟨hrej, (h.2.1 hrej).1⟩

/-- C2: the TemporalAggregator appends every FrameWidthSample to the buffer;
when at least 1.0 s of wall-clock time has elapsed since the last flush,
SmoothedWidth becomes the arithmetic mean of the buffer (which, containing
the sample just appended, is nonempty), the buffer is cleared and the flush
timestamp is reset to now; otherwise only the buffer grows and SmoothedWidth
and the timestamp are unchanged; at session start SmoothedWidth is seeded
with BaselineWidth over an empty buffer. -/
theorem temporal_aggregator_spec (s : MeasState) (v now : ℚ) (cfg : Config3)
    (f : Frame) (bgp : Pixel) (t0 : ℚ) (s0 : MeasState) :
    (now - s.last_time ≥ 1 →
      aggregate s v now =
        { s with width_buffer := [],
                 avg_width_1s := listMean (s.width_buffer ++ [v]),
                 last_time := now })
    ∧ (now - s.last_time < 1 →
      aggregate s v now = { s with width_buffer := s.width_buffer ++ [v] })
    ∧ (initMeasState cfg f bgp t0 = some s0 →
        s0.avg_width_1s = s0.initial_width ∧ s0.width_buffer = [] ∧
        s0.last_time = t0 ∧ s0.running = true) := by
  refine ⟨?_, ?_, ?_⟩
  · intro hflush
    unfold aggregate
    rw [if_pos hflush, if_neg (by simp)]
  · intro hwait
    unfold aggregate
    rw [if_neg (not_le.mpr hwait)]
  · intro hinit
    unfold initMeasState at hinit
    split at hinit
    · exact absurd hinit (by simp)
    · cases Option.some.inj hinit
      exact ⟨rfl, rfl, rfl, rfl⟩

/-- Witness for C2 at the spec's own example: a buffer holding [10, 20] plus
the new sample 30, flushed one second after the last flush, yields
SmoothedWidth 20 and an empty buffer. -/
theorem temporal_aggregator_spec_witness :
    aggregate ⟨[10, 20], 0, 7, 7, ⟨0, 0, 0⟩, 2, true⟩ 30 1 =
      ⟨[], 1, 20, 7, ⟨0, 0, 0⟩, 2, true⟩ := by
  have h := (temporal_aggregator_spec ⟨[10, 20], 0, 7, 7, ⟨0, 0, 0⟩, 2, true⟩ 30 1
      ⟨5, 220, 0, 0, 5⟩ [] ⟨0, 0, 0⟩ 0 ⟨[], 0, 0, 0, ⟨0, 0, 0⟩, 1, true⟩).1
    (by norm_num)
  rw [h]
  have hmean : listMean ([10, 20] ++ [30] : List ℚ) = 20 := by
    unfold listMean
    norm_num
  rw [hmean]

lemma cfgLookup_append_of_some (l1 l2 : List (String × ℚ)) (k : String) (v : ℚ)
    (h : cfgLookup l1 k = some v) : cfgLookup (l1 ++ l2) k = some v := by
  induction l1 with
  | nil => simp [cfgLookup] at h
  | cons kv rest ih =>
    simp only [List.cons_append, cfgLookup] at h ⊢
    by_cases hk : kv.1 = k
    · rw [if_pos hk] at h ⊢
      exact h
    · rw [if_neg hk] at h ⊢
      exact ih h

lemma cfgLookup_append_of_none (l1 l2 : List (String × ℚ)) (k : String)
    (h : cfgLookup l1 k = none) : cfgLookup (l1 ++ l2) k = cfgLookup l2 k := by
  induction l1 with
  | nil => rfl
  | cons kv rest ih =>
    simp only [cfgLookup] at h
    simp only [List.cons_append, cfgLookup]
    by_cases hk : kv.1 = k
    · rw [if_pos hk] at h
      exact absurd h (by simp)
    · rw [if_neg hk] at h
      rw [if_neg hk]
      exact ih h

lemma cfgLookup_mapped (base upd : List (String × ℚ)) (k : String) :
    cfgLookup (base.map fun kv =>
      match cfgLookup upd kv.1 with
      | some v => (kv.1, v)
      | none => kv) k =
    match cfgLookup base k, cfgLookup upd k with
    | some _, some v => some v
    | some w, none => some w
    | none, _ => none := by
  induction base with
  | nil =>
    rcases cfgLookup upd k with _ | v <;> rfl
  | cons kv rest ih =>
    by_cases hk : kv.1 = k
    · subst hk
      rcases hu : cfgLookup upd kv.1 with _ | v <;>
        simp [cfgLookup, hu]
    · rcases hu : cfgLookup upd kv.1 with _ | v
      · simp only [List.map_cons, hu, cfgLookup, if_neg hk]
        exact ih
      · simp only [List.map_cons, hu, cfgLookup, if_neg hk]
        exact ih

lemma cfgLookup_filter_of_base_none (base upd : List (String × ℚ)) (k : String)
    (h : cfgLookup base k = none) :
    cfgLookup (upd.filter fun kv => cfgLookup base kv.1 = none) k =
      cfgLookup upd k := by
  induction upd with
  | nil => rfl
  | cons kv rest ih =>
    by_cases hk : kv.1 = k
    · subst hk
      rw [List.filter_cons, if_pos (by simp [h])]
      simp [cfgLookup]
    · rw [List.filter_cons]
      by_cases hp : cfgLookup base kv.1 = none
      · rw [if_pos (by simp [hp])]
        simp only [cfgLookup]
        rw [if_neg hk, if_neg hk]
        exact ih
      · rw [if_neg (by simp [hp])]
        simp only [cfgLookup]
        rw [if_neg hk]
        exact ih

lemma cfgLookup_dictUpdate (base upd : List (String × ℚ)) (k : String) :
    cfgLookup (dictUpdate base upd) k =
      match cfgLookup upd k with
      | some v => some v
      | none => cfgLookup base k := by
  unfold dictUpdate
  rcases hb : cfgLookup base k with _ | w
  · have hmap : cfgLookup (base.map fun kv =>
        match cfgLookup upd kv.1 with
        | some v => (kv.1, v)
        | none => kv) k = none := by
      rw [cfgLookup_mapped, hb]
    rw [cfgLookup_append_of_none _ _ _ hmap,
      cfgLookup_filter_of_base_none base upd k hb]
    rcases hu : cfgLookup upd k with _ | v
    · rfl
    · rfl
  · rcases hu : cfgLookup upd k with _ | v
    · have hmap : cfgLookup (base.map fun kv =>
          match cfgLookup upd kv.1 with
          | some v => (kv.1, v)
          | none => kv) k = some w := by
        rw [cfgLookup_mapped, hb, hu]
      rw [cfgLookup_append_of_some _ _ _ _ hmap]
    · have hmap : cfgLookup (base.map fun kv =>
          match cfgLookup upd kv.1 with
          | some v => (kv.1, v)
          | none => kv) k = some v := by
        rw [cfgLookup_mapped, hb, hu]
      rw [cfgLookup_append_of_some _ _ _ _ hmap]

/-- C10: loading settings merges every key present in the settings file into
the active configuration with the file's value — keys outside the default
configuration set included, silently — keys absent from the file keep their
default, and a missing file or any read/parse error yields the complete
default configuration. -/
theorem load_settings_spec (saved : List (String × ℚ)) :
    (∀ k v, cfgLookup saved k = some v →
      cfgLookup (load_settings (some saved)) k = some v)
    ∧ (∀ k, cfgLookup saved k = none →
      cfgLookup (load_settings (some saved)) k = cfgLookup defaultConfig k)
    ∧ load_settings none = defaultConfig := by
  refine ⟨?_, ?_, rfl⟩
  · intro k v h
    unfold load_settings
    rw [cfgLookup_dictUpdate, h]
  · intro k h
    unfold load_settings
    rw [cfgLookup_dictUpdate, h]

/-- Witness for C10: the key "SOME_NEW_KEY", absent from the default
configuration, is accepted from the settings file and lands in the active
configuration with the file's value. -/
theorem load_settings_spec_witness :
    cfgLookup (load_settings (some [("SOME_NEW_KEY", 42)])) "SOME_NEW_KEY" =
      some 42
    ∧ cfgLookup defaultConfig "SOME_NEW_KEY" = none :=
  ⟨(load_settings_spec [("SOME_NEW_KEY", 42)]).1 "SOME_NEW_KEY" 42 (by rfl),
   by rfl⟩

lemma trueIndices_sorted (row : List Bool) :
    (trueIndices row).Pairwise (· < ·) :=
  (List.pairwise_lt_range _).filter _

lemma mem_trueIndices (row : List Bool) (i : ℕ) :
    i ∈ trueIndices row ↔ i < row.length ∧ row.getD i false = true := by
  simp [trueIndices, List.mem_filter, List.mem_range]

lemma mem_fgSet (row : List Bool) (i : ℕ) :
    i ∈ fgSet row ↔ i < row.length ∧ row.getD i false = true := by
  simp [fgSet, Finset.mem_filter, Finset.mem_range]

lemma le_getLastD_of_pairwise :
    ∀ (t : List ℕ) (d : ℕ), t.Pairwise (· < ·) → (∀ y ∈ t, d ≤ y) →
      d ≤ t.getLastD d := by
  intro t
  induction t with
  | nil => exact fun d _ _ => le_rfl
  | cons b t' ih =>
    intro d hp hd
    rw [List.getLastD_cons]
    have hp' := List.pairwise_cons.mp hp
    exact (hd b (List.mem_cons_self _ _)).trans
      (ih b hp'.2 fun y hy => (hp'.1 y hy).le)

lemma mem_le_getLastD :
    ∀ (xs : List ℕ) (d : ℕ), xs.Pairwise (· < ·) → ∀ x ∈ xs, x ≤ xs.getLastD d := by
  intro xs
  induction xs with
  | nil => intro d _ x hx; cases hx
  | cons a t ih =>
    intro d hp x hx
    rw [List.getLastD_cons]
    have hp' := List.pairwise_cons.mp hp
    rcases List.mem_cons.mp hx with rfl | hx'
    · exact le_getLastD_of_pairwise t x hp'.2 fun y hy => (hp'.1 y hy).le
    · exact ih a hp'.2 x hx'

lemma headD_le_mem (xs : List ℕ) (hp : xs.Pairwise (· < ·)) (x : ℕ)
    (hx : x ∈ xs) : xs.headD 0 ≤ x := by
  cases xs with
  | nil => cases hx
  | cons a t =>
    rcases List.mem_cons.mp hx with rfl | hx'
    · exact le_rfl
    · exact ((List.pairwise_cons.mp hp).1 x hx').le

lemma getLastD_mem : ∀ (xs : List ℕ), xs ≠ [] → ∀ (d : ℕ), xs.getLastD d ∈ xs := by
  intro xs
  induction xs with
  | nil => exact fun h => absurd rfl h
  | cons a t ih =>
    intro _ d
    rw [List.getLastD_cons]
    cases t with
    | nil => simp [List.getLastD]
    | cons b t' => exact List.mem_cons_of_mem _ (ih (by simp) a)

lemma headD_mem (xs : List ℕ) (h : xs ≠ []) : xs.headD 0 ∈ xs := by
  cases xs with
  | nil => exact absurd rfl h
  | cons a t => exact List.mem_cons_self _ _

/-- C5: for every mask row, the sampled width is `max_x - min_x` over the
row's foreground pixels when any exist (the outer span; a single foreground
pixel gives width 0, a row without foreground gives width 0), and every
per-row width satisfies `0 ≤ width ≤ row length - 1`. -/
theorem row_width_spec (row : List Bool) :
    (∀ hne : (fgSet row).Nonempty,
      rowWidth row = (((fgSet row).max' hne : ℕ) : ℤ) -
        (((fgSet row).min' hne : ℕ) : ℤ))
    ∧ (fgSet row = ∅ → rowWidth row = 0)
    ∧ 0 ≤ rowWidth row
    ∧ (0 < row.length → rowWidth row ≤ (row.length : ℤ) - 1) := by
  have hmem : ∀ i, i ∈ trueIndices row ↔ i ∈ fgSet row := by
    intro i
    rw [mem_trueIndices, mem_fgSet]
  have hp := trueIndices_sorted row
  by_cases hnil : trueIndices row = []
  · have hw : rowWidth row = 0 := by simp [rowWidth, hnil]
    refine ⟨?_, fun _ => hw, ?_, ?_⟩
    · intro hne
      obtain ⟨i, hi⟩ := hne
      exact absurd ((hmem i).mpr hi) (by simp [hnil])
    · rw [hw]
    · intro hlen
      rw [hw]
      omega
  · have hlast_mem : (trueIndices row).getLastD 0 ∈ trueIndices row :=
      getLastD_mem _ hnil 0
    have hhead_mem : (trueIndices row).headD 0 ∈ trueIndices row :=
      headD_mem _ hnil
    have hne : (fgSet row).Nonempty := ⟨_, (hmem _).mp hlast_mem⟩
    have hmax : (fgSet row).max' hne = (trueIndices row).getLastD 0 := by
      apply le_antisymm
      · apply Finset.max'_le
        intro y hy
        exact mem_le_getLastD _ 0 hp y ((hmem y).mpr hy)
      · exact Finset.le_max' _ _ ((hmem _).mp hlast_mem)
    have hmin : (fgSet row).min' hne = (trueIndices row).headD 0 := by
      apply le_antisymm
      · exact Finset.min'_le _ _ ((hmem _).mp hhead_mem)
      · apply Finset.le_min'
        intro y hy
        exact headD_le_mem _ hp y ((hmem y).mpr hy)
    have hhl : (trueIndices row).headD 0 ≤ (trueIndices row).getLastD 0 :=
      mem_le_getLastD _ 0 hp _ hhead_mem
    have hlt : (trueIndices row).getLastD 0 < row.length :=
      ((mem_trueIndices _ _).mp hlast_mem).1
    refine ⟨?_, ?_, ?_, ?_⟩
    · intro hne'
      have e1 : (fgSet row).max' hne' = (trueIndices row).getLastD 0 := hmax
      have e2 : (fgSet row).min' hne' = (trueIndices row).headD 0 := hmin
      rw [rowWidth, e1, e2]
    · intro h
      rw [h] at hne
      exact absurd hne (by simp)
    · rw [rowWidth]
      omega
    · intro hlen
      rw [rowWidth]
      omega

/-- Witness for C5: the row FTFT has foreground pixels at 1 and 3, outer span
(and width) 2 = 3 - 1, interior gap included. -/
theorem row_width_spec_witness :
    ∃ hne : (fgSet [false, true, false, true]).Nonempty,
      rowWidth [false, true, false, true] =
        (((fgSet [false, true, false, true]).max' hne : ℕ) : ℤ) -
          (((fgSet [false, true, false, true]).min' hne : ℕ) : ℤ)
      ∧ rowWidth [false, true, false, true] = 2
      ∧ rowWidth [false, true, false, true] ≤
          (([false, true, false, true] : List Bool).length : ℤ) - 1 := by
  have hne : (fgSet [false, true, false, true]).Nonempty := ⟨1, by decide⟩
  exact ⟨hne, (row_width_spec _).1 hne, by decide,
    (row_width_spec _).2.2.2 (by decide)⟩

lemma roiCrop_rowcount (f : Frame) (x y w h : ℕ) (hy : y + h ≤ f.length) :
    (roiCrop f x y w h).length = h := by
  simp only [roiCrop, List.length_map, List.length_take, List.length_drop]
  omega

lemma roiCrop_rowlen (f : Frame) (x y w h W : ℕ)
    (hrect : ∀ row ∈ f, row.length = W) (hx : x + w ≤ W) :
    ∀ row ∈ roiCrop f x y w h, row.length = w := by
  intro row hrow
  simp only [roiCrop, List.mem_map] at hrow
  obtain ⟨r, hr, rfl⟩ := hrow
  have hrf : r ∈ f := List.mem_of_mem_drop (List.mem_of_mem_take hr)
  rw [List.length_take, List.length_drop, hrect r hrf]
  omega

lemma flatten_length_eq (L : List (List Pixel)) (w : ℕ)
    (hw : ∀ row ∈ L, row.length = w) : L.flatten.length = L.length * w := by
  induction L with
  | nil => simp
  | cons r rest ih =>
    simp only [List.flatten_cons, List.length_append, List.length_cons]
    rw [hw r (List.mem_cons_self _ _),
      ih fun row hr => hw row (List.mem_cons_of_mem _ hr)]
    ring

/-- C9: the manual-ROI BackgroundEstimator fails exactly when the selected
rectangle has zero width or zero height, and otherwise returns the
per-channel arithmetic mean of the pixels inside the rectangle: each returned
channel times the pixel count `w*h` equals that channel's sum over the
crop. -/
theorem bg_estimator_roi_spec (f : Frame) (x y w h W : ℕ)
    (hrect : ∀ row ∈ f, row.length = W) (hy : y + h ≤ f.length)
    (hx : x + w ≤ W) :
    (bg_main f x y w h = none ↔ w = 0 ∨ h = 0)
    ∧ (w ≠ 0 → h ≠ 0 →
      ∃ p, bg_main f x y w h = some p ∧
        ((w * h : ℕ) : ℚ) * p.b =
          ((roiCrop f x y w h).flatten.map Pixel.b).sum ∧
        ((w * h : ℕ) : ℚ) * p.g =
          ((roiCrop f x y w h).flatten.map Pixel.g).sum ∧
        ((w * h : ℕ) : ℚ) * p.r =
          ((roiCrop f x y w h).flatten.map Pixel.r).sum) := by
  constructor
  · unfold bg_main
    split_ifs with hz
    · simp [hz]
    · simp [hz]
  · intro hw hh
    have hcount : (roiCrop f x y w h).flatten.length = h * w := by
      rw [flatten_length_eq _ w (roiCrop_rowlen f x y w h W hrect hx),
        roiCrop_rowcount f x y w h hy]
    have hq : ((h : ℚ) * (w : ℚ)) ≠ 0 :=
      mul_ne_zero (Nat.cast_ne_zero.mpr hh) (Nat.cast_ne_zero.mpr hw)
    refine ⟨mean_bgr (roiCrop f x y w h), ?_, ?_, ?_, ?_⟩
    · unfold bg_main
      rw [if_neg (by tauto)]
    all_goals
      unfold mean_bgr
      rw [hcount]
      push_cast
      field_simp
      ring

/-- Witness for C9: a 1×2 frame, full-frame ROI; the mean pixel satisfies the
per-channel sum equations. -/
theorem bg_estimator_roi_spec_witness :
    ∃ p, bg_main [[⟨1, 2, 3⟩, ⟨3, 4, 5⟩]] 0 0 2 1 = some p ∧
      ((2 * 1 : ℕ) : ℚ) * p.b =
        ((roiCrop [[⟨1, 2, 3⟩, ⟨3, 4, 5⟩]] 0 0 2 1).flatten.map Pixel.b).sum ∧
      ((2 * 1 : ℕ) : ℚ) * p.g =
        ((roiCrop [[⟨1, 2, 3⟩, ⟨3, 4, 5⟩]] 0 0 2 1).flatten.map Pixel.g).sum ∧
      ((2 * 1 : ℕ) : ℚ) * p.r =
        ((roiCrop [[⟨1, 2, 3⟩, ⟨3, 4, 5⟩]] 0 0 2 1).flatten.map Pixel.r).sum :=
  (bg_estimator_roi_spec [[⟨1, 2, 3⟩, ⟨3, 4, 5⟩]] 0 0 2 1 2
    (by intro row hrow; simp only [List.mem_singleton] at hrow; rw [hrow]; rfl)
    (by norm_num) (by norm_num)).2 (by norm_num) (by norm_num)

lemma diff2_nonneg (p bgp : Pixel) : 0 ≤ diff2 p bgp := by
  unfold diff2
  positivity

lemma diff2_pos_iff (p bgp : Pixel) : 0 < diff2 p bgp ↔ p ≠ bgp := by
  constructor
  · intro hpos heq
    rw [heq] at hpos
    simp [diff2] at hpos
  · intro hne
    rcases lt_or_eq_of_le (diff2_nonneg p bgp) with hlt | heq
    · exact hlt
    · exfalso
      apply hne
      have h0 : diff2 p bgp = 0 := heq.symm
      unfold diff2 at h0
      have hb2 : (p.b - bgp.b) ^ 2 = 0 :=
        le_antisymm (by nlinarith [sq_nonneg (p.g - bgp.g), sq_nonneg (p.r - bgp.r)])
          (sq_nonneg _)
      have hg2 : (p.g - bgp.g) ^ 2 = 0 :=
        le_antisymm (by nlinarith [sq_nonneg (p.b - bgp.b), sq_nonneg (p.r - bgp.r)])
          (sq_nonneg _)
      have hr2 : (p.r - bgp.r) ^ 2 = 0 :=
        le_antisymm (by nlinarith [sq_nonneg (p.b - bgp.b), sq_nonneg (p.g - bgp.g)])
          (sq_nonneg _)
      cases p
      cases bgp
      simp only [Pixel.mk.injEq]
      refine ⟨?_, ?_, ?_⟩
      · exact sub_eq_zero.mp (sq_eq_zero_iff.mp hb2)
      · exact sub_eq_zero.mp (sq_eq_zero_iff.mp hg2)
      · exact sub_eq_zero.mp (sq_eq_zero_iff.mp hr2)

lemma rawMask_zero (f : Frame) (bgp : Pixel) :
    rawMask f bgp 0 = f.map fun row => row.map fun p => decide (p ≠ bgp) := by
  unfold rawMask
  have hfun : ∀ p : Pixel, decide (diff2 p bgp > 0 ^ 2) = decide (p ≠ bgp) := by
    intro p
    apply decide_eq_decide.mpr
    rw [show (0 : ℚ) ^ 2 = 0 by norm_num]
    exact diff2_pos_iff p bgp
  simp only [hfun]

/-- C1 (amended): with ColorThreshold = 0 and BackgroundColor fixed, the raw
per-pixel thresholded mask — before the mandatory 5×5 morphological opening
and closing — is true exactly at the pixels that differ at all from
BackgroundColor; the post-morphology Mask that FrameSegmenter finally
produces need not be true at every differing pixel (the opening removes
isolated ones, see the counterexample). -/
theorem segmenter_threshold_zero (f : Frame) (bgp : Pixel) :
    rawMask f bgp 0 = f.map fun row => row.map fun p => decide (p ≠ bgp) :=
  rawMask_zero f bgp

/-- C1 counterexample: a 5×5 frame whose center pixel (255,255,255) differs
from the background (0,0,0), with ColorThreshold = 0; after the mandatory
5×5 opening and closing the Mask produced by FrameSegmenter is false at that
pixel, so the claimed property fails for the post-morphology Mask. -/
theorem segmenter_morphology_counterexample :
    (speckFrame.getD 2 []).getD 2 ⟨0, 0, 0⟩ ≠ (⟨0, 0, 0⟩ : Pixel)
    ∧ ((frameSegmenter speckFrame ⟨0, 0, 0⟩ 0).getD 2 []).getD 2 true = false := by
  constructor
  · decide
  · have hraw : rawMask speckFrame ⟨0, 0, 0⟩ 0 =
        [[false, false, false, false, false],
         [false, false, false, false, false],
         [false, false, true, false, false],
         [false, false, false, false, false],
         [false, false, false, false, false]] := by
      rw [rawMask_zero]
      decide
    unfold frameSegmenter
    rw [hraw]
    decide

lemma pyInt_mono {a b : ℚ} (h : a ≤ b) : pyInt a ≤ pyInt b := by
  unfold pyInt
  split_ifs with ha hb hb
  · exact Int.floor_le_floor h
  · exact absurd (ha.trans h) hb
  · have h1 : ⌈a⌉ ≤ 0 := Int.ceil_le.mpr (by exact_mod_cast le_of_not_le ha)
    have h2 : 0 ≤ ⌊b⌋ := Int.floor_nonneg.mpr hb
    omega
  · exact Int.ceil_le_ceil h

lemma pyInt_zero : pyInt 0 = 0 := by
  unfold pyInt
  simp

lemma marginPx_zero (h : ℤ) : marginPx 0 h = 0 := by
  unfold marginPx
  rw [mul_zero, pyInt_zero, max_self]

lemma linspaceInt_length (a b : ℤ) (m : ℕ) : (linspaceInt a b m).length = m := by
  unfold linspaceInt
  split_ifs with h0 h1
  · simp [h0]
  · simp [h1]
  · simp

lemma linspaceInt_pairwise (a b : ℤ) (m : ℕ) (hab : a ≤ b) :
    (linspaceInt a b m).Pairwise (· ≤ ·) := by
  unfold linspaceInt
  split_ifs with h0 h1
  · simp
  · simp
  · have hm : 2 ≤ m := by omega
    refine (List.pairwise_lt_range m).map _ ?_
    intro i j hij
    apply pyInt_mono
    have hd : (0 : ℚ) < (m : ℚ) - 1 := by
      have h2 : (2 : ℚ) ≤ (m : ℚ) := by exact_mod_cast hm
      linarith
    have hba : (0 : ℚ) ≤ ((b - a : ℤ) : ℚ) := by
      exact_mod_cast sub_nonneg.mpr hab
    apply add_le_add_left
    exact (div_le_div_iff_of_pos_right hd).mpr
      (mul_le_mul_of_nonneg_right (by exact_mod_cast hij.le) hba)

lemma fallbackGeom_avail_le (nrows : ℤ) (tr br : ℚ) (h : ℤ) :
    (fallbackGeom nrows tr br h).2.2 ≤ h := by
  have h1 : 0 ≤ marginPx tr h := le_max_left _ _
  have h2 : 0 ≤ marginPx br h := le_max_left _ _
  unfold fallbackGeom
  split_ifs <;> dsimp only <;> omega

lemma startStop_le (h top1 bot1 : ℤ) (hh : 1 ≤ h) :
    (startStop h top1 bot1).1 ≤ (startStop h top1 bot1).2 := by
  unfold startStop
  split_ifs with hc <;> dsimp only <;> omega

/-- C6: every SampleRowSet the code actually produces (from any frame height,
margin ratios and row count) contains only row coordinates inside
[0, height-1] and is monotonically non-decreasing. -/
theorem sample_rows_bounded_sorted (nrows : ℤ) (tr br : ℚ) (h : ℤ)
    (ys : List ℤ) (hsome : sampleYs nrows tr br h = some ys) :
    (∀ y ∈ ys, 0 ≤ y ∧ y ≤ h - 1) ∧ ys.Pairwise (· ≤ ·) := by
  have havail := fallbackGeom_avail_le nrows tr br h
  unfold sampleYs at hsome
  split_ifs at hsome with hneg
  push_neg at hneg
  have heq := Option.some.inj hsome
  subst heq
  by_cases hnum : 1 ≤ numRowsEff nrows tr br h
  · have hle : numRowsEff nrows tr br h ≤ (fallbackGeom nrows tr br h).2.2 :=
      min_le_right _ _
    have hh : 1 ≤ h := by omega
    have hab := startStop_le h (fallbackGeom nrows tr br h).1
      (fallbackGeom nrows tr br h).2.1 hh
    constructor
    · intro y hy
      obtain ⟨z, hz, rfl⟩ := List.mem_map.mp hy
      constructor
      · omega
      · omega
    · exact (linspaceInt_pairwise _ _ _ hab).map _ fun a b hab2 => by omega
  · have h0 : (numRowsEff nrows tr br h).toNat = 0 := by omega
    rw [h0]
    simp [linspaceInt]

/-- Witness for C6 at frame height 481, margin ratios 0, row count 5: the
sample rows are [0, 120, 240, 360, 480], in bounds and non-decreasing. -/
theorem sample_rows_bounded_sorted_witness :
    sampleYs 5 0 0 481 = some [0, 120, 240, 360, 480]
    ∧ (∀ y ∈ ([0, 120, 240, 360, 480] : List ℤ), 0 ≤ y ∧ y ≤ 481 - 1)
    ∧ ([0, 120, 240, 360, 480] : List ℤ).Pairwise (· ≤ ·) := by
  have hg : fallbackGeom 5 0 0 481 = (0, 0, 481) := by
    unfold fallbackGeom
    rw [marginPx_zero, if_neg (by norm_num)]
    norm_num
  have hnum : numRowsEff 5 0 0 481 = 5 := by
    unfold numRowsEff
    rw [hg]
    norm_num
  have hss : startStop 481 0 0 = (0, 480) := by
    unfold startStop
    rw [if_neg (by norm_num)]
    norm_num
  have hlin : linspaceInt 0 480 5 = [0, 120, 240, 360, 480] := by
    unfold linspaceInt
    rw [if_neg (by norm_num), if_neg (by norm_num),
      show List.range 5 = [0, 1, 2, 3, 4] from rfl]
    simp only [List.map_cons, List.map_nil]
    norm_num [pyInt]
  have heval : sampleYs 5 0 0 481 = some [0, 120, 240, 360, 480] := by
    unfold sampleYs
    rw [hnum, hg]
    dsimp only
    rw [hss]
    dsimp only
    rw [if_neg (by norm_num), show ((5 : ℤ).toNat) = 5 from rfl, hlin]
    simp only [List.map_cons, List.map_nil]
    norm_num [min_def, max_def]
  exact ⟨heval, sample_rows_bounded_sorted 5 0 0 481 _ heval⟩

/-- C7 counterexample: with an in-range configuration (row count 5, margin
ratios 0), frame height 1 makes the sample count negative — numpy raises and
the measurement cycle dies, modelled as `none` — and frame height 2 produces
an empty SampleRowSet, so the degraded row count is not always ≥ 1. -/
theorem sample_row_count_counterexample :
    sampleYs 5 0 0 1 = none ∧ sampleYs 5 0 0 2 = some [] := by
  constructor
  · have hg : fallbackGeom 5 0 0 1 = (1, 1, -1) := by
      unfold fallbackGeom
      rw [marginPx_zero, if_pos (by norm_num), if_pos (by norm_num)]
      norm_num
    have hnum : numRowsEff 5 0 0 1 = -1 := by
      unfold numRowsEff
      rw [hg]
      norm_num
    unfold sampleYs
    rw [hnum, if_pos (by norm_num)]
  · have hg : fallbackGeom 5 0 0 2 = (1, 1, 0) := by
      unfold fallbackGeom
      rw [marginPx_zero, if_pos (by norm_num), if_pos (by norm_num)]
      norm_num
    have hnum : numRowsEff 5 0 0 2 = 0 := by
      unfold numRowsEff
      rw [hg]
      norm_num
    unfold sampleYs
    rw [hnum, hg, if_neg (by norm_num)]
    dsimp only
    rw [show ((0 : ℤ).toNat) = 0 from rfl]
    rw [show linspaceInt (startStop 2 1 1).1 (startStop 2 1 1).2 0 = [] from rfl]
    rfl

/-- C7 (amended): for every frame height ≥ 3 and configured row count ≥ 1
(and any margin ratios), the SampleRowSet is produced without failure, its
length is the degraded row count `min(NUM_ROWS, available_height)`, that
length is ≥ 1, and it equals the configured row count whenever the region
between the margins can accommodate it.  For frame heights ≤ 2 this fails:
at height 1 the computation raises and at height 2 the set can be empty (see
the counterexample). -/
theorem sample_row_count_spec (nrows : ℤ) (tr br : ℚ) (h : ℤ)
    (hh : 3 ≤ h) (hn : 1 ≤ nrows) :
    ∃ ys, sampleYs nrows tr br h = some ys ∧
      ys.length = (numRowsEff nrows tr br h).toNat ∧
      1 ≤ ys.length ∧
      (nrows ≤ h - marginPx tr h - marginPx br h → ys.length = nrows.toNat) := by
  have havail1 : 1 ≤ (fallbackGeom nrows tr br h).2.2 := by
    unfold fallbackGeom
    split_ifs with h1 h2 <;> dsimp only <;> omega
  have hnum1 : 1 ≤ numRowsEff nrows tr br h := le_min hn havail1
  have hsome : sampleYs nrows tr br h = some ((linspaceInt
      (startStop h (fallbackGeom nrows tr br h).1 (fallbackGeom nrows tr br h).2.1).1
      (startStop h (fallbackGeom nrows tr br h).1 (fallbackGeom nrows tr br h).2.1).2
      (numRowsEff nrows tr br h).toNat).map fun y => min (h - 1) (max 0 y)) := by
    unfold sampleYs
    rw [if_neg (by omega)]
  refine ⟨_, hsome, ?_, ?_, ?_⟩
  · rw [List.length_map, linspaceInt_length]
  · rw [List.length_map, linspaceInt_length]
    omega
  · intro hacc
    rw [List.length_map, linspaceInt_length]
    have hg2 : (fallbackGeom nrows tr br h).2.2 =
        h - marginPx tr h - marginPx br h := by
      unfold fallbackGeom
      rw [if_neg (not_lt.mpr hacc)]
    unfold numRowsEff
    rw [hg2, min_eq_left hacc]

/-- Witness for C7 at frame height 481, margin ratios 0, row count 5. -/
theorem sample_row_count_spec_witness :
    ∃ ys, sampleYs 5 0 0 481 = some ys ∧
      ys.length = (numRowsEff 5 0 0 481).toNat ∧
      1 ≤ ys.length ∧
      ((5 : ℤ) ≤ 481 - marginPx 0 481 - marginPx 0 481 →
        ys.length = (5 : ℤ).toNat) :=
  sample_row_count_spec 5 0 0 481 (by norm_num) (by norm_num)

end OpencvMeasure
